import Mathlib

/-!
Verification of the dev-sweep CLI (scan / clean / summary pipeline).

The data model and the command pipeline are shallowly embedded from
`src/main.rs` and `src/cli/commands.rs`.  The collaborators that the
repository references but whose source files are not present
(`scanner::scan_directory`, `cleaner::clean_projects`, `util::parse_age`,
the TUI prompts) are modelled from the specification, each marked with a
doc comment starting `Modelled from the spec:`.  Filesystem effects are
represented by explicit parameters (an `isDir` predicate for path
resolution, a `DeleteOutcome`-valued function for deletion) and by an
event trace recording what a command run prints, prompts and deletes.
-/

/-- A named, sized clean target, as in the spec data model
(`{name, path, size_bytes}`).  Paths are plain strings. -/
structure CleanTarget where
  name : String
  path : String
  size_bytes : Nat
deriving Repr, DecidableEq

/-- A scanned project record, as consumed by `cli/commands.rs`
(`scanner::ScannedProject`): basename, kind id, root path, last-modified
timestamp (an integer timestamp), ordered clean targets and the cached
total of their sizes. -/
structure ScannedProject where
  name : String
  kind : String
  root_path : String
  last_modified : Int
  clean_targets : List CleanTarget
  total_cleanable_bytes : Nat
deriving Repr, DecidableEq

/-- The size invariant of the spec:
`total_cleanable_bytes == sum(size_bytes for target in clean_targets)`. -/
def sizeInvariant (p : ScannedProject) : Prop :=
  p.total_cleanable_bytes = (p.clean_targets.map CleanTarget.size_bytes).sum

instance (p : ScannedProject) : Decidable (sizeInvariant p) := by
  unfold sizeInvariant; infer_instance

/-- Modelled from the spec: the Walker/Classifier (`src/scanner.rs`, a file
absent from the repository snapshot) emits each `ScannedProject` with
`total_cleanable_bytes` computed as the sum of its targets' `size_bytes`
(spec §3 invariant, §4.2).  The traversal itself is irrelevant to the
claims; only the shape of each emitted record matters. -/
def scanned_project (name kind root : String) (lm : Int)
    (targets : List CleanTarget) : ScannedProject :=
  { name := name
    kind := kind
    root_path := root
    last_modified := lm
    clean_targets := targets
    total_cleanable_bytes := (targets.map CleanTarget.size_bytes).sum }

/-- Helper `sort_by_size` from `src/cli/commands.rs` (lines 255-257):
`projects.sort_unstable_by_key(|p| Reverse(p.total_cleanable_bytes))`,
i.e. sort in non-increasing order of `total_cleanable_bytes`. -/
def sort_by_size (projects : List ScannedProject) : List ScannedProject :=
  projects.mergeSort
    (fun a b => decide (b.total_cleanable_bytes ≤ a.total_cleanable_bytes))

/-- Helper `filter_by_age` from `src/cli/commands.rs` (lines 259-266).  `parse_age`
lives in the absent `src/util.rs`, so it is passed as a parameter; `now` is
the current timestamp and a parsed age is a duration (an integer number of
time units).  With `older_than = some s` the projects whose
`last_modified < now - duration` are retained (in order); with `none` the
list is returned unchanged. -/
def filter_by_age (parse_age : String → Except String Int) (now : Int)
    (projects : List ScannedProject) (older_than : Option String) :
    Except String (List ScannedProject) :=
  match older_than with
  | none => Except.ok projects
  | some age_str =>
    match parse_age age_str with
    | Except.error e => Except.error e
    | Except.ok duration =>
      Except.ok (projects.filter (fun p => decide (p.last_modified < now - duration)))

-- ── Basic lemmas about the pipeline stages ──────────────────────────────────

theorem sort_by_size_perm (ps : List ScannedProject) :
    (sort_by_size ps).Perm ps :=
  List.mergeSort_perm ps _

theorem sort_by_size_mem {ps : List ScannedProject} {p : ScannedProject}
    (h : p ∈ sort_by_size ps) : p ∈ ps :=
  (sort_by_size_perm ps).mem_iff.mp h

theorem sort_by_size_sorted (ps : List ScannedProject) :
    (sort_by_size ps).Sorted
      (fun a b => b.total_cleanable_bytes ≤ a.total_cleanable_bytes) := by
  have h := @List.sorted_mergeSort ScannedProject
      (fun a b : ScannedProject =>
        decide (b.total_cleanable_bytes ≤ a.total_cleanable_bytes))
      (fun a b c hab hbc => by
        simp only [decide_eq_true_eq] at *
        exact le_trans hbc hab)
      (fun a b => by
        simp only [Bool.or_eq_true, decide_eq_true_eq]
        exact Nat.le_total _ _)
      ps
  exact h.imp (fun hab => of_decide_eq_true hab)

theorem filter_by_age_none (parse_age : String → Except String Int) (now : Int)
    (ps : List ScannedProject) :
    filter_by_age parse_age now ps none = Except.ok ps := rfl

theorem filter_by_age_ok_sublist {parse_age : String → Except String Int}
    {now : Int} {ps ps' : List ScannedProject} {older : Option String}
    (h : filter_by_age parse_age now ps older = Except.ok ps') :
    ps'.Sublist ps := by
  cases older with
  | none =>
    simp only [filter_by_age, Except.ok.injEq] at h
    subst h; exact List.Sublist.refl ps
  | some s =>
    simp only [filter_by_age] at h
    cases hp : parse_age s with
    | error e => rw [hp] at h; exact absurd h (by simp)
    | ok d =>
      rw [hp] at h
      simp only [Except.ok.injEq] at h
      subst h
      exact List.filter_sublist ps

theorem filter_by_age_mem {parse_age : String → Except String Int}
    {now : Int} {ps ps' : List ScannedProject} {older : Option String}
    (h : filter_by_age parse_age now ps older = Except.ok ps')
    {p : ScannedProject} (hp : p ∈ ps') : p ∈ ps :=
  (filter_by_age_ok_sublist h).mem hp

-- ── C1: the size invariant survives every pipeline stage ────────────────────

/-- C1: for every `ScannedProject` at every stage of a command pipeline
(after scanning, after age filtering, after size sorting),
`total_cleanable_bytes` equals the sum of `size_bytes` over its
`clean_targets`; `filter_by_age` and `sort_by_size` never modify any
project record — the filtered list is a sublist of the scan output and the
sorted list is a permutation of the filtered one, so every record at every
stage is literally a record the scanner emitted. -/
theorem c1_size_invariant_every_stage
    (parse_age : String → Except String Int) (now : Int)
    (older : Option String) (ps ps' : List ScannedProject)
    (hscan : ∀ p ∈ ps, ∃ n k r l ts, p = scanned_project n k r l ts)
    (hfilter : filter_by_age parse_age now ps older = Except.ok ps') :
    (∀ p ∈ ps, sizeInvariant p) ∧
    (∀ p ∈ ps', sizeInvariant p) ∧
    (∀ p ∈ sort_by_size ps', sizeInvariant p) ∧
    ps'.Sublist ps ∧
    (sort_by_size ps').Perm ps' ∧
    (∀ p ∈ ps', p ∈ ps) ∧
    (∀ p ∈ sort_by_size ps', p ∈ ps) := by
  have hinv : ∀ p ∈ ps, sizeInvariant p := by
    intro p hp
    obtain ⟨n, k, r, l, ts, rfl⟩ := hscan p hp
    rfl
  refine ⟨hinv, ?_, ?_, filter_by_age_ok_sublist hfilter, sort_by_size_perm ps',
    fun p hp => filter_by_age_mem hfilter hp, ?_⟩
  · exact fun p hp => hinv p (filter_by_age_mem hfilter hp)
  · exact fun p hp => hinv p (filter_by_age_mem hfilter (sort_by_size_mem hp))
  · exact fun p hp => filter_by_age_mem hfilter (sort_by_size_mem hp)

/-- Witness for C1 at a concrete two-project scan output with an age filter. -/
theorem c1_size_invariant_every_stage_witness :
    (∀ p ∈ [scanned_project "a" "rust" "/a" 10 [⟨"target", "/a/target", 50⟩],
            scanned_project "b" "node" "/b" 3 [⟨"node_modules", "/b/nm", 120⟩]],
       ∃ n k r l ts, p = scanned_project n k r l ts) ∧
    filter_by_age (fun _ => Except.ok 2) 9
      [scanned_project "a" "rust" "/a" 10 [⟨"target", "/a/target", 50⟩],
       scanned_project "b" "node" "/b" 3 [⟨"node_modules", "/b/nm", 120⟩]]
      (some "2d")
      = Except.ok [scanned_project "b" "node" "/b" 3 [⟨"node_modules", "/b/nm", 120⟩]] ∧
    (∀ p ∈ [scanned_project "b" "node" "/b" 3 [⟨"node_modules", "/b/nm", 120⟩]],
       sizeInvariant p) := by
  refine ⟨?_, by rfl, ?_⟩
  · intro p hp
    rcases List.mem_cons.mp hp with h | hp
    · exact ⟨"a", "rust", "/a", 10, [⟨"target", "/a/target", 50⟩], h⟩
    rcases List.mem_cons.mp hp with h | hp
    · exact ⟨"b", "node", "/b", 3, [⟨"node_modules", "/b/nm", 120⟩], h⟩
    · exact absurd hp (List.not_mem_nil p)
  · have h := c1_size_invariant_every_stage (fun _ => Except.ok 2) 9 (some "2d")
      [scanned_project "a" "rust" "/a" 10 [⟨"target", "/a/target", 50⟩],
       scanned_project "b" "node" "/b" 3 [⟨"node_modules", "/b/nm", 120⟩]]
      [scanned_project "b" "node" "/b" 3 [⟨"node_modules", "/b/nm", 120⟩]]
      (by
        intro p hp
        rcases List.mem_cons.mp hp with h | hp
        · exact ⟨"a", "rust", "/a", 10, [⟨"target", "/a/target", 50⟩], h⟩
        rcases List.mem_cons.mp hp with h | hp
        · exact ⟨"b", "node", "/b", 3, [⟨"node_modules", "/b/nm", 120⟩], h⟩
        · exact absurd hp (List.not_mem_nil p))
      (by rfl)
    exact h.2.1

-- ── C5: sort_by_size sorts descending without touching records ──────────────

/-- C5: for every list of scanned projects, `sort_by_size` produces a
permutation of its input arranged in non-increasing order of
`total_cleanable_bytes`, without changing any project record (every output
element is an element of the input). -/
theorem c5_sort_by_size_desc_perm (ps : List ScannedProject) :
    (sort_by_size ps).Perm ps ∧
    (sort_by_size ps).Sorted
      (fun a b => b.total_cleanable_bytes ≤ a.total_cleanable_bytes) ∧
    (∀ p ∈ sort_by_size ps, p ∈ ps) ∧
    (sort_by_size ps).length = ps.length := by
  exact ⟨sort_by_size_perm ps, sort_by_size_sorted ps,
    fun p hp => sort_by_size_mem hp, (sort_by_size_perm ps).length_eq⟩

-- ── C6: filter_by_age keeps exactly the old-enough projects, in order ───────

/-- C6: for every project list and every `older_than` string that parses to
a duration `d`, `filter_by_age` retains exactly those projects whose
`last_modified` is strictly earlier than `now - d`, preserving relative
order (the result is a sublist); when `older_than` is absent the list is
unchanged. -/
theorem c6_filter_by_age_spec
    (parse_age : String → Except String Int) (now : Int)
    (ps : List ScannedProject) (s : String) (d : Int)
    (hparse : parse_age s = Except.ok d) :
    (∃ ps', filter_by_age parse_age now ps (some s) = Except.ok ps' ∧
      ps'.Sublist ps ∧
      (∀ p ∈ ps', p.last_modified < now - d) ∧
      (∀ p ∈ ps, p.last_modified < now - d → p ∈ ps') ∧
      ps'.length = ps.countP (fun p => decide (p.last_modified < now - d))) ∧
    filter_by_age parse_age now ps none = Except.ok ps := by
  refine ⟨⟨ps.filter (fun p => decide (p.last_modified < now - d)), ?_, ?_, ?_, ?_, ?_⟩, rfl⟩
  · simp only [filter_by_age, hparse]
  · exact List.filter_sublist ps
  · intro p hp
    exact of_decide_eq_true (List.mem_filter.mp hp).2
  · intro p hp hlt
    exact List.mem_filter.mpr ⟨hp, decide_eq_true hlt⟩
  · exact (List.countP_eq_length_filter _ _).symm

/-- Witness for C6 at a concrete list and a parse function returning 5. -/
theorem c6_filter_by_age_spec_witness :
    (fun _ : String => Except.ok (ε := String) (5 : Int)) "5d" = Except.ok 5 ∧
    (∃ ps', filter_by_age (fun _ => Except.ok 5) 100
        [scanned_project "old" "rust" "/o" 3 [],
         scanned_project "new" "node" "/n" 99 []] (some "5d") = Except.ok ps' ∧
      ps'.Sublist [scanned_project "old" "rust" "/o" 3 [],
                   scanned_project "new" "node" "/n" 99 []] ∧
      (∀ p ∈ ps', p.last_modified < 100 - 5) ∧
      (∀ p ∈ [scanned_project "old" "rust" "/o" 3 [],
              scanned_project "new" "node" "/n" 99 []],
         p.last_modified < 100 - 5 → p ∈ ps') ∧
      ps'.length = List.countP (fun p => decide (p.last_modified < 100 - 5))
        [scanned_project "old" "rust" "/o" 3 [],
         scanned_project "new" "node" "/n" 99 []]) := by
  refine ⟨rfl, ?_⟩
  exact (c6_filter_by_age_spec (fun _ => Except.ok 5) 100
    [scanned_project "old" "rust" "/o" 3 [],
     scanned_project "new" "node" "/n" 99 []] "5d" 5 rfl).1

-- ── Cleaning Executor (modelled from the spec, §4.4) ────────────────────────

/-- Outcome of attempting to recursively delete one target path: the target
was removed, it no longer existed (skip, contribute 0), or deletion failed
with an error message.  This stands for the filesystem at clean time. -/
inductive DeleteOutcome where
  | deleted
  | missing
  | failed (msg : String)
deriving Repr, DecidableEq

/-- Per-project clean outcome, as in the spec data model
(`{project_name, bytes_freed, errors}`). -/
structure CleanResult where
  project_name : String
  bytes_freed : Nat
  errors : List String
deriving Repr, DecidableEq

/-- Modelled from the spec: one target step of the Cleaning Executor
(`src/cleaner.rs`, a file absent from the repository snapshot; spec §4.4).
Dry run counts the recorded size without touching the filesystem; otherwise
a deleted target contributes its recorded size, a missing target
contributes 0 silently, and a failed deletion contributes 0 plus one
descriptive error naming the target. -/
def clean_target (fs : String → DeleteOutcome) (dry_run : Bool)
    (t : CleanTarget) : Nat × List String :=
  if dry_run then (t.size_bytes, [])
  else
    match fs t.path with
    | DeleteOutcome.deleted => (t.size_bytes, [])
    | DeleteOutcome.missing => (0, [])
    | DeleteOutcome.failed msg =>
      (0, ["failed to remove " ++ t.name ++ ": " ++ msg])

/-- Modelled from the spec: the executor's fold over a project's targets,
in order, never short-circuiting on error (spec §4.4, §9). -/
def run_targets (fs : String → DeleteOutcome) (dry_run : Bool) :
    List CleanTarget → Nat × List String
  | [] => (0, [])
  | t :: ts =>
    let step := clean_target fs dry_run t
    let rest := run_targets fs dry_run ts
    (step.1 + rest.1, step.2 ++ rest.2)

/-- Modelled from the spec: the executor's per-project result (spec §4.4). -/
def clean_project (fs : String → DeleteOutcome) (dry_run : Bool)
    (p : ScannedProject) : CleanResult :=
  { project_name := p.name
    bytes_freed := (run_targets fs dry_run p.clean_targets).1
    errors := (run_targets fs dry_run p.clean_targets).2 }

/-- Modelled from the spec: `clean_projects` (`cleaner::clean_projects`,
called at `src/cli/commands.rs` line 125) — one `CleanResult` per input
project, in input order. -/
def clean_projects (fs : String → DeleteOutcome)
    (projects : List ScannedProject) (dry_run : Bool) : List CleanResult :=
  projects.map (clean_project fs dry_run)

theorem run_targets_append (fs : String → DeleteOutcome) (dry_run : Bool)
    (as bs : List CleanTarget) :
    run_targets fs dry_run (as ++ bs) =
      ((run_targets fs dry_run as).1 + (run_targets fs dry_run bs).1,
       (run_targets fs dry_run as).2 ++ (run_targets fs dry_run bs).2) := by
  induction as with
  | nil => simp [run_targets]
  | cons t ts ih => simp [run_targets, ih, Nat.add_assoc]

theorem run_targets_all_deleted (fs : String → DeleteOutcome)
    (ts : List CleanTarget)
    (h : ∀ t ∈ ts, fs t.path = DeleteOutcome.deleted) :
    run_targets fs false ts = ((ts.map CleanTarget.size_bytes).sum, []) := by
  induction ts with
  | nil => simp [run_targets]
  | cons t ts ih =>
    have ht := h t (List.mem_cons_self t ts)
    have ihh := ih (fun u hu => h u (List.mem_cons_of_mem t hu))
    simp [run_targets, clean_target, ht, ihh]

-- ── C2: per-target and per-project failure isolation ────────────────────────

/-- C2: for a batch `pre ++ pk :: post` cleaned with `dry_run = false`, a
deletion failure on one target of `pk` never prevents its remaining targets
nor subsequent projects: `clean_projects` still returns one result per
input project, every fully-deletable project reports its full expected
`bytes_freed` with no errors, and `pk`, whose targets are
`as ++ t :: bs` with exactly `t` undeletable, reports `bytes_freed` equal
to the sum of the recorded sizes of `as ++ bs` plus exactly one error
entry. -/
theorem c2_clean_failure_isolation (fs : String → DeleteOutcome)
    (pre post : List ScannedProject) (pk : ScannedProject)
    (as bs : List CleanTarget) (t : CleanTarget) (msg : String)
    (hsplit : pk.clean_targets = as ++ t :: bs)
    (hfail : fs t.path = DeleteOutcome.failed msg)
    (hok : ∀ u ∈ as ++ bs, fs u.path = DeleteOutcome.deleted)
    (hothers : ∀ q ∈ pre ++ post, ∀ u ∈ q.clean_targets,
      fs u.path = DeleteOutcome.deleted) :
    (clean_projects fs (pre ++ pk :: post) false).length
        = (pre ++ pk :: post).length ∧
    clean_projects fs (pre ++ pk :: post) false =
      pre.map (clean_project fs false) ++
        clean_project fs false pk :: post.map (clean_project fs false) ∧
    (∀ q ∈ pre ++ post,
      (clean_project fs false q).bytes_freed
          = (q.clean_targets.map CleanTarget.size_bytes).sum ∧
      (clean_project fs false q).errors = []) ∧
    (clean_project fs false pk).bytes_freed
        = ((as ++ bs).map CleanTarget.size_bytes).sum ∧
    (clean_project fs false pk).errors.length = 1 := by
  have hko : run_targets fs false pk.clean_targets
      = ((as.map CleanTarget.size_bytes).sum + (bs.map CleanTarget.size_bytes).sum,
         ["failed to remove " ++ t.name ++ ": " ++ msg]) := by
    have has : ∀ u ∈ as, fs u.path = DeleteOutcome.deleted := by
      intro u hu; exact hok u (List.mem_append_left bs hu)
    have hbs : ∀ u ∈ bs, fs u.path = DeleteOutcome.deleted := by
      intro u hu; exact hok u (List.mem_append_right as hu)
    rw [hsplit, run_targets_append, run_targets_all_deleted fs as has]
    simp [run_targets, clean_target, hfail, run_targets_all_deleted fs bs hbs]
  refine ⟨by simp [clean_projects], by simp [clean_projects], ?_, ?_, ?_⟩
  · intro q hq
    have hqok := hothers q hq
    simp [clean_project, run_targets_all_deleted fs q.clean_targets hqok]
  · simp [clean_project, hko]
  · simp [clean_project, hko]

/-- Witness for C2: three concrete projects, the middle one holding a locked
target between two deletable ones. -/
theorem c2_clean_failure_isolation_witness :
    ((⟨"k", "rust", "/k", 0,
        [⟨"a", "/k/a", 10⟩, ⟨"lock", "/k/lock", 7⟩, ⟨"b", "/k/b", 5⟩], 22⟩ :
        ScannedProject).clean_targets
      = [⟨"a", "/k/a", 10⟩] ++ ⟨"lock", "/k/lock", 7⟩ :: [⟨"b", "/k/b", 5⟩]) ∧
    (clean_project (fun path => if path = "/k/lock"
        then DeleteOutcome.failed "busy" else DeleteOutcome.deleted) false
      ⟨"k", "rust", "/k", 0,
        [⟨"a", "/k/a", 10⟩, ⟨"lock", "/k/lock", 7⟩, ⟨"b", "/k/b", 5⟩], 22⟩).bytes_freed
      = ((([⟨"a", "/k/a", 10⟩] ++ [⟨"b", "/k/b", 5⟩] :
            List CleanTarget)).map CleanTarget.size_bytes).sum ∧
    (clean_project (fun path => if path = "/k/lock"
        then DeleteOutcome.failed "busy" else DeleteOutcome.deleted) false
      ⟨"k", "rust", "/k", 0,
        [⟨"a", "/k/a", 10⟩, ⟨"lock", "/k/lock", 7⟩, ⟨"b", "/k/b", 5⟩], 22⟩).errors.length
      = 1 := by
  have h := c2_clean_failure_isolation
    (fun path => if path = "/k/lock" then DeleteOutcome.failed "busy"
      else DeleteOutcome.deleted)
    [⟨"p1", "node", "/p1", 0, [⟨"nm", "/p1/nm", 120⟩], 120⟩]
    [⟨"p2", "go", "/p2", 0, [⟨"bin", "/p2/bin", 9⟩], 9⟩]
    ⟨"k", "rust", "/k", 0,
      [⟨"a", "/k/a", 10⟩, ⟨"lock", "/k/lock", 7⟩, ⟨"b", "/k/b", 5⟩], 22⟩
    [⟨"a", "/k/a", 10⟩] [⟨"b", "/k/b", 5⟩] ⟨"lock", "/k/lock", 7⟩ "busy"
    rfl rfl (by decide) (by decide)
  exact ⟨rfl, h.2.2.2.1, h.2.2.2.2⟩

-- ── C3: one result per project, in order; summary aggregates faithfully ─────

/-- The JSON summary object that `cmd_clean` builds from the executor's
results (`src/cli/commands.rs` lines 127-134): `projects_cleaned` is
`results.len()`, `total_bytes_freed` sums `bytes_freed` over the results,
and `errors` is `flat_map` of the per-result error lists, in order. -/
structure CleanSummary where
  dry_run : Bool
  projects_cleaned : Nat
  total_bytes_freed : Nat
  errors : List String
deriving Repr, DecidableEq

def cmd_clean_summary (results : List CleanResult) (dr : Bool) : CleanSummary :=
  { dry_run := dr
    projects_cleaned := results.length
    total_bytes_freed := (results.map CleanResult.bytes_freed).sum
    errors := results.flatMap CleanResult.errors }

/-- C3: `clean_projects` returns one `CleanResult` per input project in
input order (the i-th result is the executor's result for the i-th
project, carrying its name), and the summary that `cmd_clean` reports is
the aggregation of those results over the input projects in order:
`projects_cleaned` is the number of results, `total_bytes_freed` is the
sum of per-result `bytes_freed`, and the error list is the in-order
concatenation of all per-result error lists — whatever `fs` says, i.e.
even when some targets failed. -/
theorem c3_one_result_per_project_summary (fs : String → DeleteOutcome)
    (dry_run : Bool) (ps : List ScannedProject) :
    (clean_projects fs ps dry_run).length = ps.length ∧
    (∀ i (h1 : i < (clean_projects fs ps dry_run).length) (h2 : i < ps.length),
      (clean_projects fs ps dry_run).get ⟨i, h1⟩
          = clean_project fs dry_run (ps.get ⟨i, h2⟩) ∧
      ((clean_projects fs ps dry_run).get ⟨i, h1⟩).project_name
          = (ps.get ⟨i, h2⟩).name) ∧
    (cmd_clean_summary (clean_projects fs ps dry_run) dry_run).projects_cleaned
        = ps.length ∧
    (cmd_clean_summary (clean_projects fs ps dry_run) dry_run).total_bytes_freed
        = (ps.map (fun p => (clean_project fs dry_run p).bytes_freed)).sum ∧
    (cmd_clean_summary (clean_projects fs ps dry_run) dry_run).errors
        = ps.flatMap (fun p => (clean_project fs dry_run p).errors) := by
  refine ⟨by simp [clean_projects], ?_, by simp [cmd_clean_summary, clean_projects],
    ?_, ?_⟩
  · intro i h1 h2
    constructor
    · simp [clean_projects]
    · simp [clean_projects, clean_project]
  · simp [cmd_clean_summary, clean_projects, List.map_map]
    rfl
  · simp [cmd_clean_summary, clean_projects, List.flatMap_map]

/-- Witness for C3 at a concrete batch with one failing target. -/
theorem c3_one_result_per_project_summary_witness :
    (clean_projects
        (fun path => if path = "/k/lock" then DeleteOutcome.failed "busy"
          else DeleteOutcome.deleted)
        [⟨"p1", "node", "/p1", 0, [⟨"nm", "/p1/nm", 120⟩], 120⟩,
         ⟨"k", "rust", "/k", 0, [⟨"lock", "/k/lock", 7⟩, ⟨"b", "/k/b", 5⟩], 12⟩]
        false).length = 2 ∧
    (clean_projects
        (fun path => if path = "/k/lock" then DeleteOutcome.failed "busy"
          else DeleteOutcome.deleted)
        [⟨"p1", "node", "/p1", 0, [⟨"nm", "/p1/nm", 120⟩], 120⟩,
         ⟨"k", "rust", "/k", 0, [⟨"lock", "/k/lock", 7⟩, ⟨"b", "/k/b", 5⟩], 12⟩]
        false).get ⟨0, by decide⟩
      = clean_project
          (fun path => if path = "/k/lock" then DeleteOutcome.failed "busy"
            else DeleteOutcome.deleted) false
          ⟨"p1", "node", "/p1", 0, [⟨"nm", "/p1/nm", 120⟩], 120⟩ := by
  have h := c3_one_result_per_project_summary
    (fun path => if path = "/k/lock" then DeleteOutcome.failed "busy"
      else DeleteOutcome.deleted)
    false
    [⟨"p1", "node", "/p1", 0, [⟨"nm", "/p1/nm", 120⟩], 120⟩,
     ⟨"k", "rust", "/k", 0, [⟨"lock", "/k/lock", 7⟩, ⟨"b", "/k/b", 5⟩], 12⟩]
  exact ⟨h.1, (h.2.1 0 (by decide) (by decide)).1⟩

-- ── Scan-root resolution (src/main.rs) ──────────────────────────────────────

/-- A filesystem path as its list of components (Rust `PathBuf`
component-wise: `starts_with("~")` and `strip_prefix("~")` operate on the
first component, `join` appends components). -/
abbrev FsPath := List String

/-- Function `resolve_scan_path` from `src/main.rs` (lines 59-84), translated
monolithically.  `cliPath` is `cli.path`, `defaultRoots` is
`config.default_roots`, `cwd` the current directory (the code's
`unwrap_or(".")` fallback is itself the working directory, so one
parameter stands for both), `home?` is `dirs::home_dir()`
(`unwrap_or_default()` yields the empty path), and `isDir` is the
filesystem's `is_dir` test. -/
def resolve_scan_path (cliPath : Option FsPath) (defaultRoots : List FsPath)
    (cwd : FsPath) (home? : Option FsPath) (isDir : FsPath → Bool) :
    Except String FsPath :=
  let raw : FsPath :=
    match cliPath with
    | some p => p
    | none =>
      match defaultRoots.head? with
      | some first => first
      | none => cwd
  let expanded : FsPath :=
    if raw.head? = some "~" then (home?.getD []) ++ raw.tail else raw
  if isDir expanded then Except.ok expanded
  else Except.error ("Path does not exist or is not a directory: "
    ++ String.intercalate "/" expanded)

/-- Observable steps of one program run: a filesystem traversal (`scan`), a
console line (`print`), an interactive prompt (`prompt`), an invocation of
the Cleaning Executor (`cleanExec`), and the removal of one target path
(`delete`). -/
inductive Event where
  | scan
  | print (msg : String)
  | prompt (msg : String)
  | cleanExec
  | delete (path : String)
deriving Repr, DecidableEq

/-- Function `run` from `src/main.rs` (lines 19-54), restricted to what the claims
observe: the scan path is resolved first; on error the command handler is
never entered (no events, the error propagates to `main`); otherwise the
chosen command runs on the resolved path.  The command handler is abstract
here (`cmd`), standing for any of `cmd_scan`/`cmd_clean`/`cmd_summary`
applied to the resolved path. -/
def runProgram (cliPath : Option FsPath) (defaultRoots : List FsPath)
    (cwd : FsPath) (home? : Option FsPath) (isDir : FsPath → Bool)
    (cmd : FsPath → List Event × Except String Unit) :
    List Event × Except String Unit :=
  match resolve_scan_path cliPath defaultRoots cwd home? isDir with
  | Except.error e => ([], Except.error e)
  | Except.ok p => cmd p

/-- The root the spec's priority order chooses: CLI `--path` if provided,
else the first configured default root, else the current directory. -/
def chosenRoot (cliPath : Option FsPath) (defaultRoots : List FsPath)
    (cwd : FsPath) : FsPath :=
  cliPath.getD (defaultRoots.head?.getD cwd)

/-- Tilde expansion as the spec describes it: a leading `~` component is
replaced by the home directory (empty when unknown). -/
def expandTilde (home? : Option FsPath) (raw : FsPath) : FsPath :=
  if raw.head? = some "~" then (home?.getD []) ++ raw.tail else raw

-- ── C4: a bad root is fatal before any traversal ────────────────────────────

/-- C4: if the resolved scan root is not a directory, `resolve_scan_path`
returns an error and the program run produces no events at all (no scan,
no clean) — the error reaches the caller before any traversal; if it is a
directory, `resolve_scan_path` returns it and execution proceeds into the
command handler on exactly that path. -/
theorem c4_bad_root_fatal_before_traversal
    (cliPath : Option FsPath) (defaultRoots : List FsPath) (cwd : FsPath)
    (home? : Option FsPath) (isDir : FsPath → Bool)
    (cmd : FsPath → List Event × Except String Unit) :
    (isDir (expandTilde home? (chosenRoot cliPath defaultRoots cwd)) = false →
      (∃ e, resolve_scan_path cliPath defaultRoots cwd home? isDir
              = Except.error e ∧
            runProgram cliPath defaultRoots cwd home? isDir cmd
              = ([], Except.error e))) ∧
    (isDir (expandTilde home? (chosenRoot cliPath defaultRoots cwd)) = true →
      resolve_scan_path cliPath defaultRoots cwd home? isDir
          = Except.ok (expandTilde home? (chosenRoot cliPath defaultRoots cwd)) ∧
      runProgram cliPath defaultRoots cwd home? isDir cmd
          = cmd (expandTilde home? (chosenRoot cliPath defaultRoots cwd))) := by
  have hraw : (match cliPath with
      | some p => p
      | none => match defaultRoots.head? with
        | some first => first
        | none => cwd) = chosenRoot cliPath defaultRoots cwd := by
    cases cliPath with
    | some p => rfl
    | none =>
      cases defaultRoots with
      | nil => rfl
      | cons r rest => rfl
  constructor
  · intro hbad
    refine ⟨"Path does not exist or is not a directory: "
      ++ String.intercalate "/"
          (expandTilde home? (chosenRoot cliPath defaultRoots cwd)), ?_, ?_⟩
    · simp only [resolve_scan_path, hraw, expandTilde] at *
      rw [hbad]; simp
    · simp only [runProgram, resolve_scan_path, hraw, expandTilde] at *
      rw [hbad]; simp
  · intro hgood
    have hres : resolve_scan_path cliPath defaultRoots cwd home? isDir
        = Except.ok (expandTilde home? (chosenRoot cliPath defaultRoots cwd)) := by
      simp only [resolve_scan_path, hraw, expandTilde] at *
      rw [hgood]; simp
    exact ⟨hres, by simp only [runProgram, hres]⟩

/-- Witness for C4 at a concrete non-directory root and a concrete
directory root. -/
theorem c4_bad_root_fatal_before_traversal_witness :
    ((fun _ : FsPath => false) (expandTilde none (chosenRoot (some ["nope"]) [] ["cwd"])) = false ∧
      (∃ e, resolve_scan_path (some ["nope"]) [] ["cwd"] none (fun _ => false)
              = Except.error e ∧
            runProgram (some ["nope"]) [] ["cwd"] none (fun _ => false)
                (fun _ => ([Event.scan], Except.ok ()))
              = ([], Except.error e))) ∧
    ((fun _ : FsPath => true) (expandTilde none (chosenRoot none [] ["cwd"])) = true ∧
      resolve_scan_path none [] ["cwd"] none (fun _ => true)
          = Except.ok (expandTilde none (chosenRoot none [] ["cwd"])) ∧
      runProgram none [] ["cwd"] none (fun _ => true)
          (fun _ => ([Event.scan], Except.ok ()))
          = (fun _ => ([Event.scan], Except.ok ()))
              (expandTilde none (chosenRoot none [] ["cwd"]))) := by
  constructor
  · exact ⟨rfl, (c4_bad_root_fatal_before_traversal (some ["nope"]) [] ["cwd"]
      none (fun _ => false) (fun _ => ([Event.scan], Except.ok ()))).1 rfl⟩
  · exact ⟨rfl, (c4_bad_root_fatal_before_traversal none [] ["cwd"]
      none (fun _ => true) (fun _ => ([Event.scan], Except.ok ()))).2 rfl⟩

-- ── C8: resolution priority and tilde expansion ─────────────────────────────

/-- C8: the scan root is resolved with fixed priority — the CLI `--path`
argument if provided (the configured roots and the current directory are
then irrelevant), otherwise the first entry of the config's
`default_roots`, otherwise the current working directory — and a leading
`~` component of the chosen path is replaced by the home directory before
the directory check, which is applied to the expanded path. -/
theorem c8_resolution_priority_and_tilde
    (defaultRoots : List FsPath) (cwd : FsPath) (home? : Option FsPath)
    (isDir : FsPath → Bool) :
    (∀ p cwd2 roots2, resolve_scan_path (some p) defaultRoots cwd home? isDir
        = resolve_scan_path (some p) roots2 cwd2 home? isDir) ∧
    (∀ r rest, resolve_scan_path none (r :: rest) cwd home? isDir
        = resolve_scan_path (some r) [] cwd home? isDir) ∧
    (resolve_scan_path none [] cwd home? isDir
        = resolve_scan_path (some cwd) [] cwd home? isDir) ∧
    (∀ cliPath, resolve_scan_path cliPath defaultRoots cwd home? isDir
        = if isDir (expandTilde home? (chosenRoot cliPath defaultRoots cwd))
          then Except.ok (expandTilde home? (chosenRoot cliPath defaultRoots cwd))
          else Except.error ("Path does not exist or is not a directory: "
            ++ String.intercalate "/"
                (expandTilde home? (chosenRoot cliPath defaultRoots cwd)))) ∧
    (∀ raw : FsPath, raw.head? = some "~" →
        expandTilde home? raw = (home?.getD []) ++ raw.tail) ∧
    (∀ raw : FsPath, raw.head? ≠ some "~" → expandTilde home? raw = raw) := by
  refine ⟨fun p cwd2 roots2 => rfl, fun r rest => rfl, rfl, ?_, ?_, ?_⟩
  · intro cliPath
    cases cliPath with
    | some p => rfl
    | none =>
      cases defaultRoots with
      | nil => rfl
      | cons r rest => rfl
  · intro raw hh
    simp [expandTilde, hh]
  · intro raw hh
    simp only [expandTilde, if_neg hh]

/-- Witness for C8: tilde expansion applied at a concrete home and path. -/
theorem c8_resolution_priority_and_tilde_witness :
    (["~", "code"] : FsPath).head? = some "~" ∧
    expandTilde (some ["home", "u"]) ["~", "code"]
      = (["home", "u"] ++ ["code"] : FsPath) := by
  refine ⟨rfl, ?_⟩
  exact (c8_resolution_priority_and_tilde [] [] (some ["home", "u"])
    (fun _ => true)).2.2.2.2.1 ["~", "code"] rfl

-- ── C7: cmd_summary's by-kind aggregation ───────────────────────────────────

/-- One row of `cmd_summary`'s `by_kind` map: kind, project count,
reclaimable bytes. -/
abbrev KindRow := String × Nat × Nat

/-- One iteration of the `by_kind` accumulation loop in `cmd_summary`
(`src/cli/commands.rs` lines 155-160):
`by_kind.entry(p.kind).or_insert((0, 0))`, then `entry.0 += 1` and
`entry.1 += p.total_cleanable_bytes`.  The `HashMap` is modelled as an
association list holding one row per kind (iteration order of the map is
irrelevant to every claim). -/
def upsert : List KindRow → String → Nat → List KindRow
  | [], k, b => [(k, 1, b)]
  | (k', c, b') :: rest, k, b =>
    if k' = k then (k', c + 1, b' + b) :: rest
    else (k', c, b') :: upsert rest k b

/-- The full `by_kind` aggregation of `cmd_summary` over the filtered
project list. -/
def by_kind (projects : List ScannedProject) : List KindRow :=
  projects.foldl (fun m p => upsert m p.kind p.total_cleanable_bytes) []

/-- Number of projects of kind `k` in a list. -/
def kcount (ps : List ScannedProject) (k : String) : Nat :=
  (ps.filter (fun p => decide (p.kind = k))).length

/-- Total reclaimable bytes over the projects of kind `k` in a list. -/
def kbytes (ps : List ScannedProject) (k : String) : Nat :=
  ((ps.filter (fun p => decide (p.kind = k))).map
    ScannedProject.total_cleanable_bytes).sum

theorem lookup_upsert_self (m : List KindRow) (k : String) (b : Nat) :
    List.lookup k (upsert m k b) =
      some (match List.lookup k m with
        | some cb => (cb.1 + 1, cb.2 + b)
        | none => (1, b)) := by
  induction m with
  | nil => simp [upsert]
  | cons row rest ih =>
    obtain ⟨k', c, b'⟩ := row
    by_cases hk : k' = k
    · subst hk
      simp [upsert, List.lookup]
    · have hbeq : (k == k') = false := beq_eq_false_iff_ne.mpr (Ne.symm hk)
      simp [upsert, hk, List.lookup, hbeq, ih]

theorem lookup_upsert_other (m : List KindRow) (k k2 : String) (b : Nat)
    (h : k2 ≠ k) :
    List.lookup k2 (upsert m k b) = List.lookup k2 m := by
  induction m with
  | nil =>
    have hbeq : (k2 == k) = false := beq_eq_false_iff_ne.mpr h
    simp [upsert, List.lookup, hbeq]
  | cons row rest ih =>
    obtain ⟨k', c, b'⟩ := row
    by_cases hk : k' = k
    · subst hk
      have hbeq : (k2 == k') = false := beq_eq_false_iff_ne.mpr h
      simp [upsert, List.lookup, hbeq]
    · by_cases hk2 : k2 = k'
      · subst hk2
        simp [upsert, hk, List.lookup]
      · have hbeq : (k2 == k') = false := beq_eq_false_iff_ne.mpr hk2
        simp [upsert, hk, List.lookup, hbeq, ih]

theorem keys_upsert (m : List KindRow) (k : String) (b : Nat) :
    (upsert m k b).map Prod.fst =
      if k ∈ m.map Prod.fst then m.map Prod.fst else m.map Prod.fst ++ [k] := by
  induction m with
  | nil => simp [upsert]
  | cons row rest ih =>
    obtain ⟨k', c, b'⟩ := row
    by_cases hk : k' = k
    · subst hk
      simp [upsert]
    · have hne : k ≠ k' := Ne.symm hk
      by_cases hmem : k ∈ rest.map Prod.fst
      · simp [upsert, hk, ih, hmem, hne]
      · simp [upsert, hk, ih, hmem, hne]

theorem keys_upsert_nodup (m : List KindRow) (k : String) (b : Nat)
    (h : (m.map Prod.fst).Nodup) : ((upsert m k b).map Prod.fst).Nodup := by
  rw [keys_upsert]
  by_cases hmem : k ∈ m.map Prod.fst
  · simpa [hmem] using h
  · simp only [hmem, if_false]
    exact List.Nodup.append h (List.nodup_singleton k)
      (by simpa using fun hk => hmem hk)

theorem sums_upsert (m : List KindRow) (k : String) (b : Nat) :
    ((upsert m k b).map (fun row => row.2.1)).sum
        = (m.map (fun row => row.2.1)).sum + 1 ∧
    ((upsert m k b).map (fun row => row.2.2)).sum
        = (m.map (fun row => row.2.2)).sum + b := by
  induction m with
  | nil => simp [upsert]
  | cons row rest ih =>
    obtain ⟨k', c, b'⟩ := row
    by_cases hk : k' = k
    · subst hk
      constructor <;> simp [upsert] <;> omega
    · constructor <;> simp [upsert, hk, ih.1, ih.2] <;> omega

theorem kcount_cons (p : ScannedProject) (ps : List ScannedProject) (k : String) :
    kcount (p :: ps) k = if p.kind = k then kcount ps k + 1 else kcount ps k := by
  by_cases h : p.kind = k <;> simp [kcount, List.filter_cons, h]

theorem kbytes_cons (p : ScannedProject) (ps : List ScannedProject) (k : String) :
    kbytes (p :: ps) k =
      if p.kind = k then p.total_cleanable_bytes + kbytes ps k else kbytes ps k := by
  by_cases h : p.kind = k <;> simp [kbytes, List.filter_cons, h]

theorem lookup_by_kind_fold (ps : List ScannedProject) :
    ∀ (m : List KindRow) (k : String),
      List.lookup k
          (ps.foldl (fun m p => upsert m p.kind p.total_cleanable_bytes) m) =
        match List.lookup k m with
        | some cb => some (cb.1 + kcount ps k, cb.2 + kbytes ps k)
        | none =>
          if kcount ps k = 0 then none else some (kcount ps k, kbytes ps k) := by
  induction ps with
  | nil =>
    intro m k
    cases h : List.lookup k m with
    | none => simp [kcount, kbytes, h]
    | some cb => simp [kcount, kbytes, h]
  | cons p ps ih =>
    intro m k
    rw [List.foldl_cons, ih]
    by_cases hk : p.kind = k
    · rw [kcount_cons, kbytes_cons, if_pos hk, if_pos hk, ← hk,
        lookup_upsert_self]
      cases h : List.lookup p.kind m with
      | none =>
        simp
        omega
      | some cb =>
        simp
        omega
    · rw [kcount_cons, kbytes_cons, if_neg hk, if_neg hk,
        lookup_upsert_other m p.kind k p.total_cleanable_bytes (Ne.symm hk)]

theorem sums_by_kind_fold (ps : List ScannedProject) :
    ∀ (m : List KindRow),
      ((ps.foldl (fun m p => upsert m p.kind p.total_cleanable_bytes) m).map
          (fun row => row.2.1)).sum
        = (m.map (fun row => row.2.1)).sum + ps.length ∧
      ((ps.foldl (fun m p => upsert m p.kind p.total_cleanable_bytes) m).map
          (fun row => row.2.2)).sum
        = (m.map (fun row => row.2.2)).sum
            + (ps.map ScannedProject.total_cleanable_bytes).sum := by
  induction ps with
  | nil => intro m; simp
  | cons p ps ih =>
    intro m
    rw [List.foldl_cons]
    have h1 := (ih (upsert m p.kind p.total_cleanable_bytes)).1
    have h2 := (ih (upsert m p.kind p.total_cleanable_bytes)).2
    have hu := sums_upsert m p.kind p.total_cleanable_bytes
    constructor
    · rw [h1, hu.1]; simp; omega
    · rw [h2, hu.2]; simp; omega

theorem keys_by_kind_fold_nodup (ps : List ScannedProject) :
    ∀ (m : List KindRow), (m.map Prod.fst).Nodup →
      (((ps.foldl (fun m p => upsert m p.kind p.total_cleanable_bytes) m)).map
        Prod.fst).Nodup := by
  induction ps with
  | nil => intro m hm; simpa using hm
  | cons p ps ih =>
    intro m hm
    rw [List.foldl_cons]
    exact ih _ (keys_upsert_nodup m p.kind p.total_cleanable_bytes hm)

theorem lookup_of_mem_nodup_keys :
    ∀ (m : List KindRow), (m.map Prod.fst).Nodup →
      ∀ {row : KindRow}, row ∈ m → List.lookup row.1 m = some row.2 := by
  intro m
  induction m with
  | nil => intro _ row h; exact absurd h (List.not_mem_nil row)
  | cons head rest ih =>
    intro hnd row hrow
    obtain ⟨k, v⟩ := head
    rcases List.mem_cons.mp hrow with heq | hmem
    · subst heq
      simp [List.lookup]
    · have hk : row.1 ≠ k := by
        intro hcon
        have : row.1 ∈ rest.map Prod.fst := List.mem_map_of_mem Prod.fst hmem
        rw [hcon] at this
        exact (List.nodup_cons.mp (by simpa using hnd)).1 this
      have hrest : List.lookup row.1 rest = some row.2 :=
        ih (List.nodup_cons.mp (by simpa using hnd)).2 hmem
      have hbeq : (row.1 == k) = false := beq_eq_false_iff_ne.mpr hk
      simp [List.lookup, hbeq, hrest]

/-- C7: `cmd_summary`'s by-kind aggregation partitions the filtered
projects: every row's count is the number of projects of that kind and its
bytes is the sum of `total_cleanable_bytes` over projects of that kind;
kinds appear at most once; every project's kind has a row; and the per-kind
counts and bytes sum to the total project count and the total reclaimable
bytes respectively. -/
theorem c7_summary_by_kind_partition (ps : List ScannedProject) :
    (∀ row ∈ by_kind ps,
      row.2.1 = kcount ps row.1 ∧ row.2.2 = kbytes ps row.1) ∧
    ((by_kind ps).map Prod.fst).Nodup ∧
    (∀ p ∈ ps, List.lookup p.kind (by_kind ps)
        = some (kcount ps p.kind, kbytes ps p.kind)) ∧
    ((by_kind ps).map (fun row => row.2.1)).sum = ps.length ∧
    ((by_kind ps).map (fun row => row.2.2)).sum
        = (ps.map ScannedProject.total_cleanable_bytes).sum := by
  have hnd : ((by_kind ps).map Prod.fst).Nodup :=
    keys_by_kind_fold_nodup ps [] (by simp)
  refine ⟨?_, hnd, ?_, ?_, ?_⟩
  · intro row hrow
    have hl : List.lookup row.1 (by_kind ps) = some row.2 :=
      lookup_of_mem_nodup_keys (by_kind ps) hnd hrow
    have hf := lookup_by_kind_fold ps [] row.1
    simp only [by_kind] at hl
    rw [hf] at hl
    simp only [List.lookup] at hl
    by_cases hz : kcount ps row.1 = 0
    · rw [if_pos hz] at hl; exact absurd hl (by simp)
    · rw [if_neg hz] at hl
      have := Option.some.inj hl
      exact ⟨by rw [← this], by rw [← this]⟩
  · intro p hp
    have hf := lookup_by_kind_fold ps [] p.kind
    have hz : kcount ps p.kind ≠ 0 := by
      have : p ∈ ps.filter (fun q => decide (q.kind = p.kind)) :=
        List.mem_filter.mpr ⟨hp, by simp⟩
      have hlen := List.length_pos.mpr (List.ne_nil_of_mem this)
      simp only [kcount]
      omega
    simp only [by_kind]
    rw [hf]
    simp [List.lookup, hz]
  · have := (sums_by_kind_fold ps []).1
    simpa [by_kind] using this
  · have := (sums_by_kind_fold ps []).2
    simpa [by_kind] using this

-- ── Command control flow as event traces (C9, C10) ──────────────────────────

/-- The message `cmd_clean` prints when nothing survived scanning and
filtering (`src/cli/commands.rs` lines 48-54). -/
def noProjectsMsg : String := "No projects with cleanable artifacts found."

/-- Command `cmd_scan` (`src/cli/commands.rs` lines 15-33) reduced to its event
trace: scan, filter, sort, then print the results (table or JSON).
`scanRes` stands for the value of the absent `scanner::scan_directory`
(its `?` propagation is the error case). -/
def cmd_scan (scanRes : Except String (List ScannedProject))
    (parse_age : String → Except String Int) (now : Int)
    (older_than : Option String) (json : Bool) :
    List Event × Except String Unit :=
  match scanRes with
  | Except.error e => ([], Except.error e)
  | Except.ok projects0 =>
    match filter_by_age parse_age now projects0 older_than with
    | Except.error e => ([Event.scan], Except.error e)
    | Except.ok _ =>
      ([Event.scan, Event.print (if json then "json-projects" else "results-table")],
       Except.ok ())

/-- Command `cmd_summary` (`src/cli/commands.rs` lines 142-208) reduced to its
event trace: scan, filter, aggregate (pure), print. -/
def cmd_summary (scanRes : Except String (List ScannedProject))
    (parse_age : String → Except String Int) (now : Int)
    (older_than : Option String) (json : Bool) :
    List Event × Except String Unit :=
  match scanRes with
  | Except.error e => ([], Except.error e)
  | Except.ok projects0 =>
    match filter_by_age parse_age now projects0 older_than with
    | Except.error e => ([Event.scan], Except.error e)
    | Except.ok _ =>
      ([Event.scan, Event.print (if json then "json-summary" else "summary")],
       Except.ok ())

/-- The deletions a clean pass performs: none on a dry run, otherwise one
per target the filesystem reports deleted, in order. -/
def delete_events (fs : String → DeleteOutcome) (dry_run : Bool)
    (ps : List ScannedProject) : List Event :=
  if dry_run then []
  else ps.flatMap (fun p => p.clean_targets.filterMap (fun t =>
    match fs t.path with
    | DeleteOutcome.deleted => some (Event.delete t.path)
    | _ => none))

/-- Command `cmd_clean` (`src/cli/commands.rs` lines 35-140) reduced to its event
trace.  `scanRes` stands for the absent `scanner::scan_directory`;
`confirmAnswer` is the user's reply to the `confirm` prompt and
`selections` the indices returned by `multi_select` (both prompts live in
the absent TUI module).  Control flow mirrors the source: scan, filter,
sort, empty check, selection (with confirmation when not a dry run),
executor invocation, summary print. -/
def cmd_clean (scanRes : Except String (List ScannedProject))
    (parse_age : String → Except String Int) (now : Int)
    (older_than : Option String) (all dry_run json : Bool)
    (confirmAnswer : Bool) (selections : List Nat)
    (fs : String → DeleteOutcome) : List Event × Except String Unit :=
  match scanRes with
  | Except.error e => ([], Except.error e)
  | Except.ok projects0 =>
    match filter_by_age parse_age now projects0 older_than with
    | Except.error e => ([Event.scan], Except.error e)
    | Except.ok filtered =>
      let projects := sort_by_size filtered
      if projects.isEmpty then
        ([Event.scan, Event.print noProjectsMsg], Except.ok ())
      else
        let header : List Event := [Event.scan, Event.print "results-table"]
        let selection : List Event × Option (List ScannedProject) :=
          if all then
            if !dry_run then
              if confirmAnswer then ([Event.prompt "confirm-all"], some projects)
              else ([Event.prompt "confirm-all", Event.print "Aborted."], none)
            else ([], some projects)
          else
            if selections.isEmpty then
              ([Event.prompt "multi-select", Event.print "Nothing selected."], none)
            else if !dry_run then
              if confirmAnswer then
                ([Event.prompt "multi-select", Event.prompt "confirm-selected"],
                 some (selections.filterMap (fun i => projects.get? i)))
              else
                ([Event.prompt "multi-select", Event.prompt "confirm-selected",
                  Event.print "Aborted."], none)
            else
              ([Event.prompt "multi-select"],
               some (selections.filterMap (fun i => projects.get? i)))
        match selection.2 with
        | none => (header ++ selection.1, Except.ok ())
        | some selected =>
          (header ++ selection.1
            ++ [Event.print "cleaning-header", Event.cleanExec]
            ++ delete_events fs dry_run selected
            ++ [Event.print (if json then "json-summary" else "clean-summary")],
           Except.ok ())

-- ── C9: an unparsable age aborts all three commands after scanning ──────────

/-- C9: for every `older_than` string on which `parse_age` fails,
`cmd_scan`, `cmd_clean` and `cmd_summary` all return the parse error; the
run aborts after scanning but before printing anything, prompting, or
invoking the Cleaning Executor, so no deletion occurs — the trace is
exactly `[Event.scan]`. -/
theorem c9_unparsable_age_aborts
    (parse_age : String → Except String Int) (now : Int)
    (ps : List ScannedProject) (s e : String)
    (hparse : parse_age s = Except.error e)
    (json all dry_run confirmAnswer : Bool) (selections : List Nat)
    (fs : String → DeleteOutcome) :
    cmd_scan (Except.ok ps) parse_age now (some s) json
        = ([Event.scan], Except.error e) ∧
    cmd_summary (Except.ok ps) parse_age now (some s) json
        = ([Event.scan], Except.error e) ∧
    cmd_clean (Except.ok ps) parse_age now (some s) all dry_run json
        confirmAnswer selections fs
        = ([Event.scan], Except.error e) ∧
    Event.cleanExec ∉ (cmd_clean (Except.ok ps) parse_age now (some s) all
        dry_run json confirmAnswer selections fs).1 ∧
    (∀ msg, Event.prompt msg ∉ (cmd_clean (Except.ok ps) parse_age now (some s)
        all dry_run json confirmAnswer selections fs).1) ∧
    (∀ msg, Event.print msg ∉ (cmd_clean (Except.ok ps) parse_age now (some s)
        all dry_run json confirmAnswer selections fs).1) ∧
    (∀ path, Event.delete path ∉ (cmd_clean (Except.ok ps) parse_age now
        (some s) all dry_run json confirmAnswer selections fs).1) := by
  have hfilter : filter_by_age parse_age now ps (some s) = Except.error e := by
    simp [filter_by_age, hparse]
  have hclean : cmd_clean (Except.ok ps) parse_age now (some s) all dry_run
      json confirmAnswer selections fs = ([Event.scan], Except.error e) := by
    simp [cmd_clean, hfilter]
  refine ⟨by simp [cmd_scan, hfilter], by simp [cmd_summary, hfilter], hclean,
    ?_, ?_, ?_, ?_⟩
  · rw [hclean]; simp
  · intro msg; rw [hclean]; simp
  · intro msg; rw [hclean]; simp
  · intro path; rw [hclean]; simp

/-- Witness for C9 with a parse function that rejects every age string. -/
theorem c9_unparsable_age_aborts_witness :
    (fun _ : String => Except.error (α := Int) "invalid age") "oops"
        = Except.error "invalid age" ∧
    cmd_clean (Except.ok [scanned_project "a" "rust" "/a" 0 []])
        (fun _ => Except.error "invalid age") 100 (some "oops")
        true false false true [] (fun _ => DeleteOutcome.deleted)
      = ([Event.scan], Except.error "invalid age") := by
  refine ⟨rfl, ?_⟩
  exact (c9_unparsable_age_aborts (fun _ => Except.error "invalid age") 100
    [scanned_project "a" "rust" "/a" 0 []] "oops" "invalid age" rfl
    false true false true [] (fun _ => DeleteOutcome.deleted)).2.2.1

-- ── C10: an empty filtered list ends cmd_clean early and harmlessly ─────────

/-- C10: whenever scanning plus age filtering yields zero projects,
`cmd_clean` prints the no-projects message and returns success without
prompting for confirmation, invoking the Cleaning Executor, or deleting
anything. -/
theorem c10_no_projects_early_return
    (parse_age : String → Except String Int) (now : Int)
    (older : Option String) (ps : List ScannedProject)
    (all dry_run json confirmAnswer : Bool) (selections : List Nat)
    (fs : String → DeleteOutcome)
    (hfilter : filter_by_age parse_age now ps older = Except.ok []) :
    cmd_clean (Except.ok ps) parse_age now older all dry_run json
        confirmAnswer selections fs
      = ([Event.scan, Event.print noProjectsMsg], Except.ok ()) ∧
    (∀ msg, Event.prompt msg ∉ (cmd_clean (Except.ok ps) parse_age now older
        all dry_run json confirmAnswer selections fs).1) ∧
    Event.cleanExec ∉ (cmd_clean (Except.ok ps) parse_age now older all
        dry_run json confirmAnswer selections fs).1 ∧
    (∀ path, Event.delete path ∉ (cmd_clean (Except.ok ps) parse_age now older
        all dry_run json confirmAnswer selections fs).1) := by
  have hempty : cmd_clean (Except.ok ps) parse_age now older all dry_run json
      confirmAnswer selections fs
      = ([Event.scan, Event.print noProjectsMsg], Except.ok ()) := by
    simp [cmd_clean, hfilter, sort_by_size, List.mergeSort]
  refine ⟨hempty, ?_, ?_, ?_⟩
  · intro msg; rw [hempty]; simp
  · rw [hempty]; simp
  · intro path; rw [hempty]; simp

/-- Witness for C10: one fresh project filtered out by a strict age bound. -/
theorem c10_no_projects_early_return_witness :
    filter_by_age (fun _ => Except.ok 5) 10
        [scanned_project "fresh" "rust" "/f" 9 [⟨"target", "/f/target", 1⟩]]
        (some "5d") = Except.ok [] ∧
    cmd_clean (Except.ok
          [scanned_project "fresh" "rust" "/f" 9 [⟨"target", "/f/target", 1⟩]])
        (fun _ => Except.ok 5) 10 (some "5d") true false false true []
        (fun _ => DeleteOutcome.deleted)
      = ([Event.scan, Event.print noProjectsMsg], Except.ok ()) := by
  refine ⟨by rfl, ?_⟩
  exact (c10_no_projects_early_return (fun _ => Except.ok 5) 10 (some "5d")
    [scanned_project "fresh" "rust" "/f" 9 [⟨"target", "/f/target", 1⟩]]
    true false false true [] (fun _ => DeleteOutcome.deleted) (by rfl)).1

-- ── Witnesses for C5 and C7 at concrete inputs ──────────────────────────────

/-- Witness for C5: two concrete projects, and membership in the sorted
output transfers to the input. -/
theorem c5_sort_by_size_desc_perm_witness :
    (sort_by_size [scanned_project "a" "rust" "/a" 0 [⟨"target", "/a/t", 50⟩],
        scanned_project "b" "node" "/b" 0 [⟨"nm", "/b/nm", 120⟩]]).Perm
      [scanned_project "a" "rust" "/a" 0 [⟨"target", "/a/t", 50⟩],
       scanned_project "b" "node" "/b" 0 [⟨"nm", "/b/nm", 120⟩]] ∧
    scanned_project "b" "node" "/b" 0 [⟨"nm", "/b/nm", 120⟩]
      ∈ [scanned_project "a" "rust" "/a" 0 [⟨"target", "/a/t", 50⟩],
         scanned_project "b" "node" "/b" 0 [⟨"nm", "/b/nm", 120⟩]] := by
  refine ⟨(c5_sort_by_size_desc_perm _).1, ?_⟩
  exact (c5_sort_by_size_desc_perm
    [scanned_project "a" "rust" "/a" 0 [⟨"target", "/a/t", 50⟩],
     scanned_project "b" "node" "/b" 0 [⟨"nm", "/b/nm", 120⟩]]).2.2.1
    (scanned_project "b" "node" "/b" 0 [⟨"nm", "/b/nm", 120⟩])
    ((sort_by_size_perm _).mem_iff.mpr (by decide))

/-- Witness for C7: three concrete projects (two rust, one node); the rust
row of the aggregation carries count 2 and bytes 80. -/
theorem c7_summary_by_kind_partition_witness :
    (("rust", 2, 80) : KindRow).2.1
        = kcount [scanned_project "x" "rust" "/x" 0 [⟨"t", "/x/t", 50⟩],
                  scanned_project "y" "node" "/y" 0 [⟨"nm", "/y/nm", 120⟩],
                  scanned_project "z" "rust" "/z" 0 [⟨"t", "/z/t", 30⟩]] "rust" ∧
    (("rust", 2, 80) : KindRow).2.2
        = kbytes [scanned_project "x" "rust" "/x" 0 [⟨"t", "/x/t", 50⟩],
                  scanned_project "y" "node" "/y" 0 [⟨"nm", "/y/nm", 120⟩],
                  scanned_project "z" "rust" "/z" 0 [⟨"t", "/z/t", 30⟩]] "rust" := by
  exact (c7_summary_by_kind_partition
    [scanned_project "x" "rust" "/x" 0 [⟨"t", "/x/t", 50⟩],
     scanned_project "y" "node" "/y" 0 [⟨"nm", "/y/nm", 120⟩],
     scanned_project "z" "rust" "/z" 0 [⟨"t", "/z/t", 30⟩]]).1
    ("rust", 2, 80) (by decide)
